import Mathlib

/-!
Verification of the dual-target build, linking and size-report engine of the
foundry-zksync toolchain slice, as a shallow embedding in Lean.

The definitions below are translated from the Rust sources:
* `crates/common/src/compile.rs` — size report, deployed-size computation and
  the zksync missing-library aggregation of `zksync_handle_output`;
* `crates/cheatcodes/src/test.rs` — the dual-compiled-contract registry
  cheatcode and the breakpoint cheatcode.
-/

/- ### Size report (`crates/common/src/compile.rs`, lines 639-749) -/

-- https://eips.ethereum.org/EIPS/eip-170
def CONTRACT_SIZE_LIMIT : Nat := 24576

-- zksync contract size limit
def ZKSYNC_CONTRACT_SIZE_LIMIT : Nat := 450999

/-- How big the contract is and whether it is a dev contract
(`ContractInfo` in `compile.rs`). -/
structure ContractInfo where
  size : Nat
  is_dev_contract : Bool
deriving DecidableEq, Repr

/-- Contracts with info about their size (`SizeReport` in `compile.rs`).
The Rust `BTreeMap<String, ContractInfo>` is modelled as an association list;
only the key-to-value mapping matters for the properties below. -/
structure SizeReport where
  contracts : List (String × ContractInfo)
  zksync : Bool

/-- The loop body of `SizeReport::max_size`:
`if !contract.is_dev_contract && contract.size > max_size { max_size = contract.size }`. -/
def max_size_step (max_size : Nat) (contract : String × ContractInfo) : Nat :=
  if !contract.2.is_dev_contract && decide (contract.2.size > max_size) then contract.2.size
  else max_size

/-- `SizeReport::max_size`: the size of the largest contract, excluding test
contracts, computed by a fold starting from 0. -/
def SizeReport.max_size (r : SizeReport) : Nat :=
  r.contracts.foldl max_size_step 0

/-- `SizeReport::exceeds_size_limit`: true if any contract exceeds the size
limit, excluding test contracts. -/
def SizeReport.exceeds_size_limit (r : SizeReport) : Bool :=
  if r.zksync then r.max_size > ZKSYNC_CONTRACT_SIZE_LIMIT
  else r.max_size > CONTRACT_SIZE_LIMIT

/-- The fold of `max_size` computes the maximum of the accumulator and of the
sizes of the non-dev contracts of the list. -/
theorem foldl_max_size_step (l : List (String × ContractInfo)) (m : Nat) :
    l.foldl max_size_step m =
      max m (((l.filter fun c => !c.2.is_dev_contract).map fun c => c.2.size).foldr max 0) := by
  induction l generalizing m with
  | nil => simp
  | cons c l ih =>
    cases hdev : c.2.is_dev_contract with
    | true => simp [max_size_step, hdev, ih]
    | false =>
      by_cases hlt : c.2.size > m
      · simp [max_size_step, hdev, hlt, ih]
        omega
      · simp [max_size_step, hdev, hlt, ih]
        omega

/-- The threshold selected by `exceeds_size_limit` for the active target. -/
def size_limit (zksync : Bool) : Nat :=
  if zksync then ZKSYNC_CONTRACT_SIZE_LIMIT else CONTRACT_SIZE_LIMIT

/-- Characterisation of `exceeds_size_limit` through the maximum of the
non-dev contract sizes. -/
theorem exceeds_size_limit_iff_foldr (r : SizeReport) :
    r.exceeds_size_limit = true ↔
      ((r.contracts.filter fun c => !c.2.is_dev_contract).map fun c => c.2.size).foldr max 0 >
        size_limit r.zksync := by
  rcases r with ⟨contracts, z⟩
  have h := foldl_max_size_step contracts 0
  cases z <;>
    simp [SizeReport.exceeds_size_limit, SizeReport.max_size, size_limit, h]

/-- Claim C1: `exceeds_size_limit` returns true iff the maximum size among the
contracts with `is_dev_contract = false` strictly exceeds the fixed threshold
of the active target (24576 bytes for the default target, 450999 bytes for the
zksync target); a dev contract never contributes to that maximum. -/
theorem C1_exceeds_size_limit_iff (r : SizeReport) :
    r.exceeds_size_limit = true ↔
      ((r.contracts.filter fun c => !c.2.is_dev_contract).map fun c => c.2.size).foldr max 0 >
        (if r.zksync then ZKSYNC_CONTRACT_SIZE_LIMIT else CONTRACT_SIZE_LIMIT) :=
  exceeds_size_limit_iff_foldr r

/- ### Bytecode objects and deployed size (`compile.rs`, lines 478-498 and 723-740) -/

/-- `BytecodeObject` of `foundry_compilers::artifacts`: either fully resolved
bytes, or an unlinked textual hex string that still contains library
placeholders. The unlinked string is kept as its list of characters. -/
inductive BytecodeObject where
  | Bytecode (bytes : List Nat)
  | Unlinked (unlinked : List Char)
deriving DecidableEq

/-- Rust `str::len` of the unlinked string: the length of its UTF-8 encoding
in bytes (`unlinked.as_bytes().len()`). -/
def utf8Len (s : List Char) : Nat := (s.map Char.utf8Size).sum

/-- Rust `unlinked.starts_with("0x")`. -/
def startsWith0x : List Char → Bool
  | '0' :: 'x' :: _ => true
  | _ => false

/-- `deployed_contract_size` in `compile.rs`: the size of the deployed
contract. `none` models the `?` early return when the artifact has no deployed
bytecode object. -/
def deployed_contract_size (deployed_bytecode : Option BytecodeObject) : Option Nat :=
  match deployed_bytecode with
  | none => none
  | some bytecode =>
    let size := match bytecode with
      | BytecodeObject.Bytecode bytes => bytes.length
      | BytecodeObject.Unlinked unlinked =>
        let size := utf8Len unlinked
        let size := if startsWith0x unlinked then size - 2 else size
        size / 2
    some size

/-- The size assigned in the zksync size-report loop of
`zksync_handle_output` (`compile.rs`, lines 479-486): resolved bytes give
their literal length, an unlinked object gives 0. -/
def zksync_artifact_size (bytecode : BytecodeObject) : Nat :=
  match bytecode with
  | BytecodeObject.Bytecode bytes => bytes.length
  | BytecodeObject.Unlinked _ => 0

/-- A hex string made of 1-byte (ASCII) characters has UTF-8 length equal to
its character count. -/
theorem utf8Len_eq_length (s : List Char) (h : ∀ c ∈ s, Char.utf8Size c = 1) :
    utf8Len s = s.length := by
  induction s with
  | nil => rfl
  | cons c s ih =>
    have hc := h c (List.mem_cons_self c s)
    have hs := ih fun d hd => h d (List.mem_cons_of_mem c hd)
    simp [utf8Len, List.map_cons, List.sum_cons, hc] at *
    omega

/-- Claim C2: for an artifact whose deployed bytecode still contains
unresolved library placeholders, the deployed-size computation equals the
character count of the textual hex representation, minus 2 when it carries the
leading "0x", integer-divided by two; for fully resolved bytecode it is the
literal byte length. (The character-count reading requires the text to be
ASCII, which a hex representation is; Rust's `len` counts UTF-8 bytes.) -/
theorem C2_deployed_contract_size (s : List Char) (bytes : List Nat)
    (h : ∀ c ∈ s, Char.utf8Size c = 1) :
    deployed_contract_size (some (BytecodeObject.Unlinked s)) =
      some ((if startsWith0x s then s.length - 2 else s.length) / 2) ∧
    deployed_contract_size (some (BytecodeObject.Bytecode bytes)) = some bytes.length := by
  refine ⟨?_, rfl⟩
  simp [deployed_contract_size, utf8Len_eq_length s h]

/-- Witness for C2 at the hex string of the spec: 24578 characters including
the "0x" head yield exactly (24578 - 2) / 2 = 12288 bytes. -/
theorem C2_witness :
    (∀ c ∈ ('0' :: 'x' :: List.replicate 24576 'f'), Char.utf8Size c = 1) ∧
    ('0' :: 'x' :: List.replicate 24576 'f').length = 24578 ∧
    deployed_contract_size
        (some (BytecodeObject.Unlinked ('0' :: 'x' :: List.replicate 24576 'f'))) =
      some 12288 := by
  have hasc : ∀ c ∈ ('0' :: 'x' :: List.replicate 24576 'f'), Char.utf8Size c = 1 := by
    intro c hc
    rcases List.mem_cons.mp hc with rfl | hc
    · decide
    rcases List.mem_cons.mp hc with rfl | hc
    · decide
    · rw [(List.mem_replicate.mp hc).2]
      decide
  refine ⟨hasc, by rw [List.length_cons, List.length_cons, List.length_replicate], ?_⟩
  have h := (C2_deployed_contract_size ('0' :: 'x' :: List.replicate 24576 'f') [] hasc).1
  rw [h, show startsWith0x ('0' :: 'x' :: List.replicate 24576 'f') = true from rfl,
    List.length_cons, List.length_cons, List.length_replicate]
  norm_num

/- ### C9: unlinked artifacts in the zksync size report -/

/-- `BTreeMap::insert` on the association-list model of the size-report map:
replaces the value of an existing key, otherwise appends the pair. -/
def btreeMapInsert (m : List (String × ContractInfo)) (k : String) (v : ContractInfo) :
    List (String × ContractInfo) :=
  if m.any (fun e => e.1 == k) then m.map (fun e => if e.1 == k then (k, v) else e)
  else m ++ [(k, v)]

theorem le_foldr_max (l : List Nat) (x : Nat) (hx : x ∈ l) : x ≤ l.foldr max 0 := by
  induction l with
  | nil => cases hx
  | cons a l ih =>
    rcases List.mem_cons.mp hx with rfl | hx
    · simp only [List.foldr_cons]
      omega
    · have := ih hx
      simp only [List.foldr_cons]
      omega

theorem foldr_max_le (l1 l2 : List Nat) (h : ∀ x ∈ l1, x = 0 ∨ x ∈ l2) :
    l1.foldr max 0 ≤ l2.foldr max 0 := by
  induction l1 with
  | nil => simp
  | cons a l ih =>
    simp only [List.foldr_cons]
    have ha := h a (List.mem_cons_self a l)
    have hl := ih fun x hx => h x (List.mem_cons_of_mem a hx)
    rcases ha with rfl | ha
    · omega
    · have := le_foldr_max l2 a ha
      omega

/-- An entry of the map after a `btreeMapInsert` is either an original entry
or carries the inserted value. -/
theorem mem_btreeMapInsert (m : List (String × ContractInfo)) (k : String) (v : ContractInfo)
    (e : String × ContractInfo) (he : e ∈ btreeMapInsert m k v) :
    e ∈ m ∨ e.2 = v := by
  unfold btreeMapInsert at he
  by_cases hany : m.any (fun e => e.1 == k) = true
  · rw [if_pos hany] at he
    obtain ⟨e0, he0, heq⟩ := List.mem_map.mp he
    by_cases hk : (e0.1 == k) = true
    · right; rw [if_pos hk] at heq; rw [← heq]
    · left; rw [if_neg hk] at heq; rwa [← heq]
  · rw [if_neg hany] at he
    rcases List.mem_append.mp he with h | h
    · left; exact h
    · right
      have : e = (k, v) := by simpa using h
      rw [this]

/-- `max_size` of a report is the fold of `max` over the sizes of its non-dev
contracts. -/
theorem max_size_eq_foldr (contracts : List (String × ContractInfo)) (z : Bool) :
    (SizeReport.mk contracts z).max_size =
      ((contracts.filter fun c => !c.2.is_dev_contract).map fun c => c.2.size).foldr max 0 := by
  have h := foldl_max_size_step contracts 0
  simpa [SizeReport.max_size] using h

/-- Claim C9: in the zksync size-report path an artifact whose bytecode object
is still unlinked is assigned size 0 (not the hex-character count divided by
two), so inserting such an artifact into a size report can never turn the
exceeds check from false to true. -/
theorem C9_zksync_unlinked_size_zero (s : List Char) (r : SizeReport) (name : String)
    (dev : Bool) :
    zksync_artifact_size (BytecodeObject.Unlinked s) = 0 ∧
    ((SizeReport.mk
        (btreeMapInsert r.contracts name
          (ContractInfo.mk (zksync_artifact_size (BytecodeObject.Unlinked s)) dev))
        r.zksync).exceeds_size_limit = true →
      r.exceeds_size_limit = true) := by
  refine ⟨rfl, ?_⟩
  intro hex
  rw [exceeds_size_limit_iff_foldr] at hex ⊢
  simp only [zksync_artifact_size] at hex
  have hle :
      (((btreeMapInsert r.contracts name
            (ContractInfo.mk 0 dev)).filter fun c => !c.2.is_dev_contract).map
          fun c => c.2.size).foldr max 0 ≤
        ((r.contracts.filter fun c => !c.2.is_dev_contract).map fun c => c.2.size).foldr
          max 0 := by
    apply foldr_max_le
    intro x hx
    obtain ⟨e, he, rfl⟩ := List.mem_map.mp hx
    have hef := List.mem_filter.mp he
    rcases mem_btreeMapInsert _ _ _ _ hef.1 with hold | hv
    · right
      exact List.mem_map.mpr ⟨e, List.mem_filter.mpr ⟨hold, hef.2⟩, rfl⟩
    · left
      rw [hv]
  exact lt_of_lt_of_le hex hle

/- ### Dual-compiled-contract registry (`crates/cheatcodes/src/test.rs`, lines 26-60) -/

/-- `DualCompiledContract` of `foundry_zksync_compiler`: one contract's
target-A (evm) and target-B (zk) compiled outputs. Hashes are modelled as
natural numbers, bytecodes as byte lists. -/
structure DualCompiledContract where
  name : String
  zk_bytecode_hash : Nat
  zk_deployed_bytecode : List Nat
  zk_factory_deps : List (List Nat)
  evm_bytecode_hash : Nat
  evm_deployed_bytecode : List Nat
  evm_bytecode : List Nat
deriving DecidableEq

/-- The identity key of a registry entry: the pair of target-A (evm) and
target-B (zk) bytecode hashes used by the duplicate check. -/
def identity_key (c : DualCompiledContract) : Nat × Nat :=
  (c.evm_bytecode_hash, c.zk_bytecode_hash)

/-- `zkRegisterContractCall::apply_stateful`: if an entry with the same pair
of bytecode hashes already exists the registry is returned unchanged (the
duplicate is only logged), otherwise the new contract is pushed at the end. -/
def zkRegisterContract (dual_compiled_contracts : List DualCompiledContract)
    (new_contract : DualCompiledContract) : List DualCompiledContract :=
  match dual_compiled_contracts.find? (fun contract =>
      contract.evm_bytecode_hash == new_contract.evm_bytecode_hash &&
      contract.zk_bytecode_hash == new_contract.zk_bytecode_hash) with
  | some _ => dual_compiled_contracts
  | none => dual_compiled_contracts ++ [new_contract]

theorem zkRegisterContract_of_not_mem (reg : List DualCompiledContract)
    (new_contract : DualCompiledContract)
    (h : ∀ c ∈ reg, identity_key c ≠ identity_key new_contract) :
    zkRegisterContract reg new_contract = reg ++ [new_contract] := by
  unfold zkRegisterContract
  have hf : reg.find? (fun contract =>
      contract.evm_bytecode_hash == new_contract.evm_bytecode_hash &&
      contract.zk_bytecode_hash == new_contract.zk_bytecode_hash) = none := by
    rw [List.find?_eq_none]
    intro c hc
    simp only [Bool.and_eq_true, beq_iff_eq, not_and]
    intro h1 h2
    exact h c hc (by simp [identity_key, h1, h2])
  rw [hf]

theorem zkRegisterContract_of_mem (reg : List DualCompiledContract)
    (new_contract : DualCompiledContract)
    (h : ∃ c ∈ reg, identity_key c = identity_key new_contract) :
    zkRegisterContract reg new_contract = reg := by
  unfold zkRegisterContract
  obtain ⟨c, hc, hk⟩ := h
  simp only [identity_key, Prod.mk.injEq] at hk
  have : reg.find? (fun contract =>
      contract.evm_bytecode_hash == new_contract.evm_bytecode_hash &&
      contract.zk_bytecode_hash == new_contract.zk_bytecode_hash) ≠ none := by
    intro hnone
    rw [List.find?_eq_none] at hnone
    exact hnone c hc (by simp [hk.1, hk.2])
  cases hfind : reg.find? (fun contract =>
      contract.evm_bytecode_hash == new_contract.evm_bytecode_hash &&
      contract.zk_bytecode_hash == new_contract.zk_bytecode_hash) with
  | some d => rfl
  | none => exact absurd hfind this

/-- One registration step preserves distinctness of the identity keys. -/
theorem zkRegisterContract_nodup (reg : List DualCompiledContract)
    (new_contract : DualCompiledContract)
    (h : (reg.map identity_key).Nodup) :
    ((zkRegisterContract reg new_contract).map identity_key).Nodup := by
  by_cases hmem : ∃ c ∈ reg, identity_key c = identity_key new_contract
  · rw [zkRegisterContract_of_mem reg new_contract hmem]
    exact h
  · push_neg at hmem
    rw [zkRegisterContract_of_not_mem reg new_contract hmem]
    rw [List.map_append]
    simp only [List.map_cons, List.map_nil]
    rw [List.nodup_append]
    refine ⟨h, List.nodup_singleton _, ?_⟩
    intro k hk hk1
    simp only [List.mem_singleton] at hk1
    obtain ⟨c, hc, rfl⟩ := List.mem_map.mp hk
    exact hmem c hc hk1

/-- Any sequence of registrations starting from the empty registry keeps the
identity keys pairwise distinct. -/
theorem foldl_zkRegisterContract_nodup (regs : List DualCompiledContract)
    (init : List DualCompiledContract) (h : (init.map identity_key).Nodup) :
    ((regs.foldl zkRegisterContract init).map identity_key).Nodup := by
  induction regs generalizing init with
  | nil => exact h
  | cons r regs ih => exact ih _ (zkRegisterContract_nodup _ _ h)

/-- Claim C3: a registration with a fresh (evm hash, zk hash) key appends
exactly one entry; a registration whose key matches an existing entry leaves
the registry unchanged; consequently any sequence of registrations starting
from the empty registry never produces two entries with the same identity
key. -/
theorem C3_zkRegisterContract (dual_compiled_contracts : List DualCompiledContract)
    (new_contract : DualCompiledContract) (regs : List DualCompiledContract) :
    ((∀ c ∈ dual_compiled_contracts, identity_key c ≠ identity_key new_contract) →
        zkRegisterContract dual_compiled_contracts new_contract =
          dual_compiled_contracts ++ [new_contract] ∧
        (zkRegisterContract dual_compiled_contracts new_contract).length =
          dual_compiled_contracts.length + 1) ∧
    ((∃ c ∈ dual_compiled_contracts, identity_key c = identity_key new_contract) →
        zkRegisterContract dual_compiled_contracts new_contract = dual_compiled_contracts) ∧
    ((regs.foldl zkRegisterContract []).map identity_key).Nodup := by
  refine ⟨?_, ?_, ?_⟩
  · intro h
    have he := zkRegisterContract_of_not_mem dual_compiled_contracts new_contract h
    rw [he]
    simp
  · exact zkRegisterContract_of_mem dual_compiled_contracts new_contract
  · exact foldl_zkRegisterContract_nodup regs [] (by simp)

/- ### Missing-library token splitting (`compile.rs`, lines 403-428) -/

/-- Rust `str::split(':')` on the character list of a token: the list of
separator-delimited segments (always non-empty; empty segments are kept). -/
def splitOnChar (sep : Char) : List Char → List (List Char)
  | [] => [[]]
  | c :: rest =>
    if c = sep then [] :: splitOnChar sep rest
    else
      match splitOnChar sep rest with
      | [] => [[c]]
      | w :: ws => (c :: w) :: ws

/-- The token handling of `zksync_handle_output`: two `Iterator::next` calls
on `ml.split(':')`, each followed by `expect`. `none` models the panic (the
fatal format error) raised when a part is missing; parts after the second are
ignored. -/
def extractMissingLibraryToken (ml : List Char) : Option (List Char × List Char) :=
  match splitOnChar ':' ml with
  | contract_path :: contract_name :: _ => some (contract_path, contract_name)
  | _ => none

/-- Claim C4's reading of the token format, stated from the spec's words: the
token splits into exactly two non-empty parts on the separator. -/
def exactlyTwoNonEmptyParts (ml : List Char) : Bool :=
  match splitOnChar ':' ml with
  | [p, n] => !p.isEmpty && !n.isEmpty
  | _ => false

/-- Splitting yields one more segment than there are separators. -/
theorem splitOnChar_length (sep : Char) (l : List Char) :
    (splitOnChar sep l).length = l.count sep + 1 := by
  induction l with
  | nil => rfl
  | cons c l ih =>
    by_cases h : c = sep
    · simp [splitOnChar, h, List.count_cons, ih]
    · cases hs : splitOnChar sep l with
      | nil => rw [hs] at ih; simp at ih
      | cons w ws =>
        rw [hs] at ih
        simp only [List.length_cons] at ih
        have hne : (sep == c) = false := by
          simp [beq_iff_eq]
          exact fun he => h he.symm
        simp [splitOnChar, h, hs, List.count_cons, hne]
        omega

/-- Counterexample to claim C4 as stated: the token "a:b:c" does not split
into exactly two non-empty parts, yet the code accepts it — taking "a" as the
path and "b" as the name and ignoring the rest — instead of raising the fatal
format error the claim requires for such tokens. -/
theorem C4_counterexample :
    (extractMissingLibraryToken ('a' :: ':' :: 'b' :: ':' :: 'c' :: []) =
        some (['a'], ['b']) ∧
      exactlyTwoNonEmptyParts ('a' :: ':' :: 'b' :: ':' :: 'c' :: []) = false) ∧
    (extractMissingLibraryToken (':' :: 'b' :: []) = some ([], ['b']) ∧
      exactlyTwoNonEmptyParts (':' :: 'b' :: []) = false) := by
  decide

/-- Claim C4 amended: a missing-library token causes the fatal format error
iff it contains no ':' separator at all; when a separator is present the first
two separator-delimited parts (either possibly empty) become the path and the
name, and any further parts are ignored rather than rejected. -/
theorem C4_amended_token_format (ml : List Char) :
    (extractMissingLibraryToken ml = none ↔ ':' ∉ ml) ∧
    (∀ p n rest, splitOnChar ':' ml = p :: n :: rest →
      extractMissingLibraryToken ml = some (p, n)) := by
  constructor
  · unfold extractMissingLibraryToken
    have hlen := splitOnChar_length ':' ml
    cases hs : splitOnChar ':' ml with
    | nil => rw [hs] at hlen; simp at hlen
    | cons p rest =>
      cases rest with
      | nil =>
        rw [hs] at hlen
        simp only [List.length_cons, List.length_nil] at hlen
        have hcnt : ml.count ':' = 0 := by omega
        simp [List.count_eq_zero.mp hcnt]
      | cons n rest2 =>
        rw [hs] at hlen
        simp only [List.length_cons] at hlen
        have hcnt : 0 < ml.count ':' := by omega
        have hmem : ':' ∈ ml := by
          by_contra hnot
          rw [List.count_eq_zero.mpr hnot] at hcnt
          omega
        simp [hmem]
  · intro p n rest hs
    unfold extractMissingLibraryToken
    rw [hs]

/- ### Missing-library aggregation of `zksync_handle_output` -/

/-- An artifact of the zksync build output as seen by
`zksync_handle_output`: its id's absolute path and name, and the compiler's
`missing_libraries` field. -/
structure ZkContractArtifact where
  path : String
  name : String
  missing_libraries : Option (List String)
deriving DecidableEq

/-- The target-file filter of `zksync_handle_output`:
`self.files.is_empty() || self.files.iter().any(|f| artifact_id.path == *f)`. -/
def is_target_file (files : List String) (path : String) : Bool :=
  files.isEmpty || files.any (fun f => path == f)

/-- Insertion into the `HashSet<String>` of unique missing-library tokens,
modelled as a duplicate-free list. -/
def hashSetInsert (acc : List String) (x : String) : List String :=
  if x ∈ acc then acc else acc ++ [x]

/-- The first loop of `zksync_handle_output`: collect into a set the
`missing_libraries` entries of every artifact that passes the target-file
filter. -/
def missing_libs_unique (files : List String) (artifacts : List ZkContractArtifact) :
    List String :=
  artifacts.foldl
    (fun acc artifact =>
      if is_target_file files artifact.path then
        (artifact.missing_libraries.getD []).foldl hashSetInsert acc
      else acc)
    []

/-- `PathBuf::new().push(root_path).push(contract_path)` for the relative
contract path of a missing-library token. -/
def joinPath (root p : String) : String :=
  if root = "" then p else root ++ "/" ++ p

/-- `output.find(abs_path, contract_name)`: look up an artifact by path and
name. -/
def findArtifact (artifacts : List ZkContractArtifact) (path name : String) :
    Option ZkContractArtifact :=
  artifacts.find? (fun a => a.path == path && a.name == name)

/-- `ZkMissingLibrary` of `foundry_zksync_compiler::libraries`. -/
structure ZkMissingLibrary where
  contract_path : String
  contract_name : String
  missing_libraries : List String
deriving DecidableEq

/-- The per-token closure of `zksync_handle_output`: split the token on ':',
resolve it to its own artifact under the project root, and record that
artifact's own missing libraries alongside it. `none` models the two `expect`
panics and the `unwrap_or_else` panic for an unknown artifact. -/
def resolve_missing_library (root : String) (artifacts : List ZkContractArtifact)
    (ml : String) : Option ZkMissingLibrary :=
  match extractMissingLibraryToken ml.data with
  | none => none
  | some (p, n) =>
    let contract_path := String.mk p
    let contract_name := String.mk n
    match findArtifact artifacts (joinPath root contract_path) contract_name with
    | none => none
    | some art =>
      some { contract_path := contract_path, contract_name := contract_name,
             missing_libraries := art.missing_libraries.getD [] }

/-- The `collect()` over all unique tokens: one `ZkMissingLibrary` record per
token, aborting (`none`) if any token fails to resolve. -/
def resolveAll (root : String) (artifacts : List ZkContractArtifact) :
    List String → Option (List ZkMissingLibrary)
  | [] => some []
  | ml :: rest =>
    match resolve_missing_library root artifacts ml, resolveAll root artifacts rest with
    | some r, some rs => some (r :: rs)
    | _, _ => none

/-- The whole missing-library aggregation pass of `zksync_handle_output`. -/
def collect_missing_libraries (root : String) (files : List String)
    (artifacts : List ZkContractArtifact) : Option (List ZkMissingLibrary) :=
  resolveAll root artifacts (missing_libs_unique files artifacts)

theorem mem_hashSetInsert (acc : List String) (a x : String) :
    x ∈ hashSetInsert acc a ↔ x ∈ acc ∨ x = a := by
  unfold hashSetInsert
  by_cases hmem : a ∈ acc
  · rw [if_pos hmem]
    constructor
    · exact Or.inl
    · rintro (h | rfl)
      · exact h
      · exact hmem
  · rw [if_neg hmem]
    simp

theorem mem_foldl_hashSetInsert (l : List String) (acc : List String) (x : String) :
    x ∈ l.foldl hashSetInsert acc ↔ x ∈ acc ∨ x ∈ l := by
  induction l generalizing acc with
  | nil => simp
  | cons a l ih =>
    rw [List.foldl_cons, ih, mem_hashSetInsert, List.mem_cons]
    tauto

/-- With no target-file filter, a token is collected iff some artifact of the
output lists it among its missing libraries. -/
theorem mem_missing_libs_unique (artifacts : List ZkContractArtifact) (x : String) :
    x ∈ missing_libs_unique [] artifacts ↔
      ∃ a ∈ artifacts, x ∈ a.missing_libraries.getD [] := by
  have aux : ∀ (l : List ZkContractArtifact) (acc : List String),
      x ∈ l.foldl
          (fun acc artifact =>
            if is_target_file [] artifact.path then
              (artifact.missing_libraries.getD []).foldl hashSetInsert acc
            else acc)
          acc ↔
        x ∈ acc ∨ ∃ a ∈ l, x ∈ a.missing_libraries.getD [] := by
    intro l
    induction l with
    | nil => simp
    | cons a l ih =>
      intro acc
      rw [List.foldl_cons]
      rw [if_pos (show is_target_file [] a.path = true from rfl)]
      rw [ih, mem_foldl_hashSetInsert]
      constructor
      · rintro ((hx | hx) | ⟨b, hb, hxb⟩)
        · exact Or.inl hx
        · exact Or.inr ⟨a, List.mem_cons_self a l, hx⟩
        · exact Or.inr ⟨b, List.mem_cons_of_mem a hb, hxb⟩
      · rintro (hx | ⟨b, hb, hxb⟩)
        · exact Or.inl (Or.inl hx)
        · rcases List.mem_cons.mp hb with rfl | hb
          · exact Or.inl (Or.inr hxb)
          · exact Or.inr ⟨b, hb, hxb⟩
  unfold missing_libs_unique
  rw [aux artifacts []]
  simp

/-- Every collected token whose aggregation succeeded has its own record in
the result. -/
theorem resolveAll_mem (root : String) (artifacts : List ZkContractArtifact)
    (toks : List String) (recs : List ZkMissingLibrary)
    (h : resolveAll root artifacts toks = some recs) :
    ∀ ml ∈ toks, ∃ r ∈ recs, resolve_missing_library root artifacts ml = some r := by
  induction toks generalizing recs with
  | nil => intro ml hml; cases hml
  | cons t ts ih =>
    unfold resolveAll at h
    cases hr : resolve_missing_library root artifacts t with
    | none => rw [hr] at h; simp at h
    | some r =>
      rw [hr] at h
      cases hrs : resolveAll root artifacts ts with
      | none => rw [hrs] at h; simp at h
      | some rs =>
        rw [hrs] at h
        simp only [Option.some.injEq] at h
        intro ml hml
        rcases List.mem_cons.mp hml with rfl | hml
        · exact ⟨r, by rw [← h]; exact List.mem_cons_self r rs, hr⟩
        · obtain ⟨r2, hr2, hres⟩ := ih rs hrs ml hml
          exact ⟨r2, by rw [← h]; exact List.mem_cons_of_mem r hr2, hres⟩

/-- Claim C5: when the target artifact reports library token `l1` as missing,
`l1`'s artifact reports `l2`, and `l2`'s artifact reports `l3`, a single
successful aggregation pass (with no target-file filter) produces a record
for each of the three tokens, not only for the direct dependency. -/
theorem C5_transitive_missing_surfaced (root : String)
    (artifacts : List ZkContractArtifact) (t a1 a2 : ZkContractArtifact)
    (l1 l2 l3 : String) (recs : List ZkMissingLibrary)
    (ht : t ∈ artifacts) (h1 : l1 ∈ t.missing_libraries.getD [])
    (ha1 : a1 ∈ artifacts) (h2 : l2 ∈ a1.missing_libraries.getD [])
    (ha2 : a2 ∈ artifacts) (h3 : l3 ∈ a2.missing_libraries.getD [])
    (hres : collect_missing_libraries root [] artifacts = some recs) :
    ∀ l ∈ [l1, l2, l3], ∃ r ∈ recs, resolve_missing_library root artifacts l = some r := by
  intro l hl
  apply resolveAll_mem root artifacts _ recs hres
  rw [mem_missing_libs_unique]
  rcases List.mem_cons.mp hl with rfl | hl
  · exact ⟨t, ht, h1⟩
  rcases List.mem_cons.mp hl with rfl | hl
  · exact ⟨a1, ha1, h2⟩
  rcases List.mem_cons.mp hl with rfl | hl
  · exact ⟨a2, ha2, h3⟩
  · cases hl

/-- Witness for C5: a concrete output with the chain T → L1 → L2 → L3. The
single aggregation pass yields one record per library token, surfacing all
three of them. -/
theorem C5_witness :
    collect_missing_libraries "/prj" []
        [ZkContractArtifact.mk "/prj/src/T.sol" "T" (some ["src/L1.sol:L1"]),
         ZkContractArtifact.mk "/prj/src/L1.sol" "L1" (some ["src/L2.sol:L2"]),
         ZkContractArtifact.mk "/prj/src/L2.sol" "L2" (some ["src/L3.sol:L3"]),
         ZkContractArtifact.mk "/prj/src/L3.sol" "L3" (some [])] =
      some [ZkMissingLibrary.mk "src/L1.sol" "L1" ["src/L2.sol:L2"],
            ZkMissingLibrary.mk "src/L2.sol" "L2" ["src/L3.sol:L3"],
            ZkMissingLibrary.mk "src/L3.sol" "L3" []] ∧
    (∀ l ∈ ["src/L1.sol:L1", "src/L2.sol:L2", "src/L3.sol:L3"],
      ∃ r ∈ [ZkMissingLibrary.mk "src/L1.sol" "L1" ["src/L2.sol:L2"],
             ZkMissingLibrary.mk "src/L2.sol" "L2" ["src/L3.sol:L3"],
             ZkMissingLibrary.mk "src/L3.sol" "L3" []],
        resolve_missing_library "/prj"
            [ZkContractArtifact.mk "/prj/src/T.sol" "T" (some ["src/L1.sol:L1"]),
             ZkContractArtifact.mk "/prj/src/L1.sol" "L1" (some ["src/L2.sol:L2"]),
             ZkContractArtifact.mk "/prj/src/L2.sol" "L2" (some ["src/L3.sol:L3"]),
             ZkContractArtifact.mk "/prj/src/L3.sol" "L3" (some [])] l = some r) := by
  have hcol :
      collect_missing_libraries "/prj" []
          [ZkContractArtifact.mk "/prj/src/T.sol" "T" (some ["src/L1.sol:L1"]),
           ZkContractArtifact.mk "/prj/src/L1.sol" "L1" (some ["src/L2.sol:L2"]),
           ZkContractArtifact.mk "/prj/src/L2.sol" "L2" (some ["src/L3.sol:L3"]),
           ZkContractArtifact.mk "/prj/src/L3.sol" "L3" (some [])] =
        some [ZkMissingLibrary.mk "src/L1.sol" "L1" ["src/L2.sol:L2"],
              ZkMissingLibrary.mk "src/L2.sol" "L2" ["src/L3.sol:L3"],
              ZkMissingLibrary.mk "src/L3.sol" "L3" []] := by decide
  refine ⟨hcol, ?_⟩
  exact C5_transitive_missing_surfaced "/prj"
    [ZkContractArtifact.mk "/prj/src/T.sol" "T" (some ["src/L1.sol:L1"]),
     ZkContractArtifact.mk "/prj/src/L1.sol" "L1" (some ["src/L2.sol:L2"]),
     ZkContractArtifact.mk "/prj/src/L2.sol" "L2" (some ["src/L3.sol:L3"]),
     ZkContractArtifact.mk "/prj/src/L3.sol" "L3" (some [])]
    (ZkContractArtifact.mk "/prj/src/T.sol" "T" (some ["src/L1.sol:L1"]))
    (ZkContractArtifact.mk "/prj/src/L1.sol" "L1" (some ["src/L2.sol:L2"]))
    (ZkContractArtifact.mk "/prj/src/L2.sol" "L2" (some ["src/L3.sol:L3"]))
    "src/L1.sol:L1" "src/L2.sol:L2" "src/L3.sol:L3"
    [ZkMissingLibrary.mk "src/L1.sol" "L1" ["src/L2.sol:L2"],
     ZkMissingLibrary.mk "src/L2.sol" "L2" ["src/L3.sol:L3"],
     ZkMissingLibrary.mk "src/L3.sol" "L3" []]
    (by decide) (by decide) (by decide) (by decide) (by decide) (by decide) hcol

/- ### Missing-library cache and the MissingDependency error (`compile.rs`, lines 430-442) -/

/-- The persisted missing-library cache, keyed by (contract path, contract
name), holding each contract's set of missing library tokens. -/
abbrev LibraryCache := List ((String × String) × List String)

/-- Union of two token sets on the list model: keep the first operand and add
the members of the second that are not already present. -/
def union_tokens (a b : List String) : List String :=
  a ++ b.filter (fun t => !a.contains t)

/-- Modelled from the spec: one step of
`add_dependencies_to_missing_libraries_cache` of
`foundry_zksync_compiler::libraries`, whose source is not part of this
repository slice. The spec states the cache maps contract path+name to its
set of missing library tokens and is "merged (union) on each update — never
overwritten wholesale". -/
def cache_insert (cache : LibraryCache) (lib : ZkMissingLibrary) : LibraryCache :=
  let key := (lib.contract_path, lib.contract_name)
  if cache.any (fun e => e.1 == key) then
    cache.map (fun e =>
      if e.1 == key then (e.1, union_tokens e.2 lib.missing_libraries) else e)
  else cache ++ [(key, lib.missing_libraries)]

/-- Modelled from the spec: `add_dependencies_to_missing_libraries_cache`
merges every record of the round into the project-root-keyed cache. -/
def add_dependencies_to_missing_libraries_cache (cache : LibraryCache)
    (missing_libs : List ZkMissingLibrary) : LibraryCache :=
  missing_libs.foldl cache_insert cache

/-- The "path:name" list the error message of `zksync_handle_output`
enumerates (the `missing_libs_list` vector before joining with ", "). -/
def missing_libs_list (missing_libs : List ZkMissingLibrary) : List String :=
  missing_libs.map (fun ml => ml.contract_path ++ ":" ++ ml.contract_name)

/-- The tail of `zksync_handle_output`: when missing libraries remain, merge
them into the persisted cache and fail with the MissingDependency error
enumerating them; otherwise succeed with the cache untouched. The second
component is the error: `some` carries the enumerated "path:name" pairs. -/
def zksync_report_missing_libraries (cache : LibraryCache)
    (missing_libs : List ZkMissingLibrary) : LibraryCache × Option (List String) :=
  if missing_libs.isEmpty then (cache, none)
  else (add_dependencies_to_missing_libraries_cache cache missing_libs,
        some (missing_libs_list missing_libs))

/-- `cache_insert` keeps every existing entry's key and only grows its token
set. -/
theorem cache_insert_preserves (cache : LibraryCache) (lib : ZkMissingLibrary)
    (e : (String × String) × List String) (he : e ∈ cache) :
    ∃ e2 ∈ cache_insert cache lib, e2.1 = e.1 ∧ e.2 ⊆ e2.2 := by
  unfold cache_insert
  by_cases hany : cache.any (fun e => e.1 == (lib.contract_path, lib.contract_name)) = true
  · rw [if_pos hany]
    by_cases hk : (e.1 == (lib.contract_path, lib.contract_name)) = true
    · refine ⟨(e.1, union_tokens e.2 lib.missing_libraries), ?_, rfl, ?_⟩
      · apply List.mem_map.mpr
        exact ⟨e, he, by rw [if_pos hk]⟩
      · intro t ht
        exact List.mem_append_left _ ht
    · refine ⟨e, ?_, rfl, fun t ht => ht⟩
      apply List.mem_map.mpr
      exact ⟨e, he, by rw [if_neg hk]⟩
  · rw [if_neg hany]
    exact ⟨e, List.mem_append_left _ he, rfl, fun t ht => ht⟩

/-- The cache merge of a whole round keeps every existing entry's key and
only grows its token set: no persisted state is lost. -/
theorem add_dependencies_preserves (missing_libs : List ZkMissingLibrary)
    (cache : LibraryCache) (e : (String × String) × List String) (he : e ∈ cache) :
    ∃ e2 ∈ add_dependencies_to_missing_libraries_cache cache missing_libs,
      e2.1 = e.1 ∧ e.2 ⊆ e2.2 := by
  induction missing_libs generalizing cache e with
  | nil => exact ⟨e, he, rfl, fun t ht => ht⟩
  | cons lib libs ih =>
    obtain ⟨e2, he2, hk2, hs2⟩ := cache_insert_preserves cache lib e he
    obtain ⟨e3, he3, hk3, hs3⟩ := ih (cache_insert cache lib) e2 he2
    exact ⟨e3, he3, by rw [hk3, hk2], fun t ht => hs3 (hs2 ht)⟩

/-- Claim C6: when a build round leaves missing libraries, the handling
returns a MissingDependency error enumerating every "path:name" pair and has
first merged the records into the persisted cache without losing any existing
entry or token; when no library is missing, no error is returned and the
cache is untouched. -/
theorem C6_missing_dependency_error (cache : LibraryCache)
    (missing_libs : List ZkMissingLibrary) :
    ((zksync_report_missing_libraries cache missing_libs).2 ≠ none ↔
      missing_libs ≠ []) ∧
    (missing_libs ≠ [] →
      (zksync_report_missing_libraries cache missing_libs).2 =
          some (missing_libs_list missing_libs) ∧
      ∀ ml ∈ missing_libs,
        (ml.contract_path ++ ":" ++ ml.contract_name) ∈ missing_libs_list missing_libs) ∧
    (missing_libs = [] → (zksync_report_missing_libraries cache missing_libs).1 = cache) ∧
    (∀ e ∈ cache, ∃ e2 ∈ (zksync_report_missing_libraries cache missing_libs).1,
      e2.1 = e.1 ∧ e.2 ⊆ e2.2) := by
  refine ⟨?_, ?_, ?_, ?_⟩
  · unfold zksync_report_missing_libraries
    cases missing_libs with
    | nil => simp
    | cons l ls => simp
  · intro hne
    have hemp : missing_libs.isEmpty = false := by
      cases missing_libs with
      | nil => exact absurd rfl hne
      | cons l ls => rfl
    unfold zksync_report_missing_libraries
    rw [hemp]
    refine ⟨rfl, ?_⟩
    intro ml hml
    exact List.mem_map.mpr ⟨ml, hml, rfl⟩
  · intro heq
    subst heq
    rfl
  · intro e he
    unfold zksync_report_missing_libraries
    cases missing_libs with
    | nil => exact ⟨e, he, rfl, fun t ht => ht⟩
    | cons l ls =>
      exact add_dependencies_preserves (l :: ls) cache e he

/- ### Breakpoints (`crates/cheatcodes/src/test.rs`, lines 131-146) -/

/-- The breakpoint map of the cheatcode state: single-character label to
(caller address, program counter), modelled extensionally. Addresses and
program counters are natural numbers. -/
abbrev Breakpoints := Char → Option (Nat × Nat)

/-- `state.breakpoints.insert(point, (*caller, state.pc))`. -/
def breakpoints_insert (breakpoints : Breakpoints) (point : Char) (v : Nat × Nat) :
    Breakpoints :=
  fun c => if c = point then some v else breakpoints c

/-- `state.breakpoints.remove(&point)`. -/
def breakpoints_remove (breakpoints : Breakpoints) (point : Char) : Breakpoints :=
  fun c => if c = point then none else breakpoints c

/-- The `breakpoint` helper of `test.rs`: validate that the label is exactly
one character and that it is alphabetic, then insert or remove. The result is
the new map together with the error of the two `bail!`/`ensure!` paths, both
taken before any mutation. Rust's Unicode `char::is_alphabetic` is
table-driven and host-provided, so it is passed as a parameter. -/
def breakpoint (is_alphabetic : Char → Bool) (breakpoints : Breakpoints)
    (caller : Nat) (pc : Nat) (s : List Char) (add : Bool) :
    Breakpoints × Option String :=
  match s with
  | [point] =>
    if is_alphabetic point then
      if add then (breakpoints_insert breakpoints point (caller, pc), none)
      else (breakpoints_remove breakpoints point, none)
    else (breakpoints, some "only alphabetic characters are accepted as breakpoints")
  | _ => (breakpoints, some "breakpoints must be exactly one character")

/-- Claim C7: a breakpoint set or clear call succeeds iff the supplied label
is exactly one alphabetic character; the empty label, a multi-character label
and a single non-alphabetic character all fail validation. -/
theorem C7_breakpoint_label_validation (is_alphabetic : Char → Bool)
    (breakpoints : Breakpoints) (caller pc : Nat) (s : List Char) (add : Bool) :
    (breakpoint is_alphabetic breakpoints caller pc s add).2 = none ↔
      ∃ c, s = [c] ∧ is_alphabetic c = true := by
  match s with
  | [] => simp [breakpoint]
  | [point] =>
    cases ha : is_alphabetic point with
    | true =>
      cases add <;> simp [breakpoint, ha]
    | false =>
      simp [breakpoint, ha]
  | c1 :: c2 :: rest => simp [breakpoint]

/-- Claim C8: setting a valid single alphabetic label stores exactly the new
(caller, program counter) for that label — overwriting any prior value and
touching no other label — and clearing a label succeeds, with clearing an
absent label leaving the map unchanged. -/
theorem C8_breakpoint_insert_remove (is_alphabetic : Char → Bool)
    (breakpoints : Breakpoints) (caller pc : Nat) (point : Char)
    (h : is_alphabetic point = true) :
    (breakpoint is_alphabetic breakpoints caller pc [point] true).2 = none ∧
    (breakpoint is_alphabetic breakpoints caller pc [point] true).1 point =
      some (caller, pc) ∧
    (∀ c, c ≠ point →
      (breakpoint is_alphabetic breakpoints caller pc [point] true).1 c = breakpoints c) ∧
    (breakpoint is_alphabetic breakpoints caller pc [point] false).2 = none ∧
    (breakpoint is_alphabetic breakpoints caller pc [point] false).1 point = none ∧
    (breakpoints point = none →
      (breakpoint is_alphabetic breakpoints caller pc [point] false).1 = breakpoints) := by
  refine ⟨by simp [breakpoint, h], by simp [breakpoint, h, breakpoints_insert], ?_,
    by simp [breakpoint, h], by simp [breakpoint, h, breakpoints_remove], ?_⟩
  · intro c hc
    simp [breakpoint, h, breakpoints_insert, hc]
  · intro habs
    funext c
    by_cases hc : c = point
    · subst hc
      simp [breakpoint, h, breakpoints_remove, habs]
    · simp [breakpoint, h, breakpoints_remove, hc]

/-- Witness for C8 at the label 'a' over the empty map. -/
theorem C8_witness :
    ((breakpoint Char.isAlpha (fun _ => none) 7 42 ['a'] true).2 = none ∧
    (breakpoint Char.isAlpha (fun _ => none) 7 42 ['a'] true).1 'a' = some (7, 42) ∧
    (∀ c, c ≠ 'a' →
      (breakpoint Char.isAlpha (fun _ => none) 7 42 ['a'] true).1 c = (fun _ => none) c) ∧
    (breakpoint Char.isAlpha (fun _ => none) 7 42 ['a'] false).2 = none ∧
    (breakpoint Char.isAlpha (fun _ => none) 7 42 ['a'] false).1 'a' = none ∧
    ((fun _ => none : Breakpoints) 'a' = none →
      (breakpoint Char.isAlpha (fun _ => none) 7 42 ['a'] false).1 = fun _ => none)) :=
  C8_breakpoint_insert_remove Char.isAlpha (fun _ => none) 7 42 'a' (by decide)

/-- Claim C10: a breakpoint call that fails validation leaves the breakpoint
map unchanged — both error paths return before any mutation. -/
theorem C10_breakpoint_error_no_mutation (is_alphabetic : Char → Bool)
    (breakpoints : Breakpoints) (caller pc : Nat) (s : List Char) (add : Bool)
    (herr : (breakpoint is_alphabetic breakpoints caller pc s add).2 ≠ none) :
    (breakpoint is_alphabetic breakpoints caller pc s add).1 = breakpoints := by
  match s with
  | [] => rfl
  | [point] =>
    cases ha : is_alphabetic point with
    | true =>
      exfalso
      apply herr
      cases add <;> simp [breakpoint, ha]
    | false => simp [breakpoint, ha]
  | c1 :: c2 :: rest => rfl

/-- Witness for C10 at the two-character label "ab". -/
theorem C10_witness :
    (breakpoint Char.isAlpha (fun _ => none) 0 0 ['a', 'b'] true).2 ≠ none ∧
    (breakpoint Char.isAlpha (fun _ => none) 0 0 ['a', 'b'] true).1 = (fun _ => none) :=
  ⟨by simp [breakpoint],
   C10_breakpoint_error_no_mutation Char.isAlpha (fun _ => none) 0 0 ['a', 'b'] true
     (by simp [breakpoint])⟩
